import Mathlib

/-!
# static/css/js/script.js

A shallow embedding of the page script: the handler of DOMContentLoaded, which
wires the image preview (a change listener on the element with id image-input
that renders the first selected file inside the element with id image-preview)
and the confirmation prompt (a submit listener on every form[data-confirm]).

The page is an HTML document: a tree of nodes in which an element is referred to
by its path from the document element (the list of child indices). The browser is
the environment: it delivers change and submit events at nodes of the document,
completes or fails the reads started by readAsDataURL, and answers window.confirm.
Events bubble from their target to the document element, and an element that is
removed from the document takes its listeners with it. Change events are events of
file inputs, which have a selected-files collection.
-/

namespace Script

/-! ## The DOM -/

/-- Position of a node below the document element: the child indices, outermost first. -/
abbrev Path := List Nat

/-- DOM nodes: text, or an element with a tag name, attributes and child nodes. -/
inductive Node where
  | text (data : String)
  | element (tag : String) (attrs : List (String × String)) (children : List Node)

/-- Child nodes of a node (a text node has none). -/
def Node.children : Node → List Node
  | .text _ => []
  | .element _ _ cs => cs

/-- Element.getAttribute: the value of the named attribute, or none (null in the script). -/
def Node.getAttribute : Node → String → Option String
  | .text _, _ => none
  | .element _ a _, name => a.lookup name

/-- Element.setAttribute on an attribute list: replace the value in place or add the attribute. -/
def setAttr (name value : String) : List (String × String) → List (String × String)
  | [] => [(name, value)]
  | (k, v) :: rest => if k = name then (k, value) :: rest else (k, v) :: setAttr name value rest

/-- Element.setAttribute. -/
def Node.setAttribute : Node → String → String → Node
  | .text d, _, _ => .text d
  | .element t a cs, name, value => .element t (setAttr name value a) cs

/-- Result of document.createElement: a fresh element without attributes or children. -/
def createElement (tag : String) : Node := .element tag [] []

mutual
/-- The elements of the subtree of a node in document order, each with its path
relative to that node. -/
def Node.elements : Node → List (Path × Node)
  | .text _ => []
  | .element t a cs => ([], .element t a cs) :: childElements 0 cs
/-- The elements below the nodes of a child list whose first node has index i. -/
def childElements (i : Nat) : List Node → List (Path × Node)
  | [] => []
  | n :: ns => (n.elements.map fun e => (i :: e.1, e.2)) ++ childElements (i + 1) ns
end

/-- Result of document.getElementById: the first element in document order whose id
attribute is the given one. -/
def getElementById (doc : Node) (id : String) : Option Path :=
  (doc.elements.find? fun e => e.2.getAttribute "id" == some id).map Prod.fst

/-- Test whether an element matches a selector of the shape tag[attr]. -/
def Node.matchesSelector (tag attr : String) : Node → Bool
  | .text _ => false
  | .element t a _ => t == tag && (a.lookup attr).isSome

/-- Result of document.querySelectorAll for a selector tag[attr]: all matching elements
in document order. -/
def querySelectorAll (doc : Node) (tag attr : String) : List Path :=
  (doc.elements.filter fun e => e.2.matchesSelector tag attr).map Prod.fst

/-- The node at a path. -/
def Node.nodeAt : Node → Path → Option Node
  | n, [] => some n
  | .text _, _ :: _ => none
  | .element _ _ cs, i :: p =>
    match cs[i]? with
    | some c => c.nodeAt p
    | none => none

/-- Child nodes of the node at a path (empty when there is no such node). -/
def childrenAt (doc : Node) (p : Path) : List Node :=
  match doc.nodeAt p with
  | some n => n.children
  | none => []

/-- Tag name of the element at a path. -/
def tagAt (doc : Node) (p : Path) : Option String :=
  match doc.nodeAt p with
  | some (.element t _ _) => some t
  | _ => none

/-- Test whether the node at p is the node at a or one of its descendants. -/
def isAncestorOrSelf : Path → Path → Bool
  | [], _ => true
  | _ :: _, [] => false
  | i :: a, j :: p => i == j && isAncestorOrSelf a p

/-- Test whether the node at p is a descendant of the node at a. -/
def isDescendant : Path → Path → Bool
  | [], [] => false
  | [], _ :: _ => true
  | _ :: _, [] => false
  | i :: a, j :: p => i == j && isDescendant a p

/-- The ancestors of the node at a path, outermost first. -/
def properAncestors : Path → List Path
  | [] => []
  | i :: p => [] :: (properAncestors p).map fun q => i :: q

/-- The nodes a bubbling event visits: its target, then the ancestors of the target,
innermost first. -/
def eventPath (target : Path) : List Path :=
  target :: (properAncestors target).reverse

/-- Replace the child list cs of the element with tag t at a path by f t cs. -/
def Node.modifyChildren (f : String → List Node → List Node) : Node → Path → Node
  | .text d, _ => .text d
  | .element t a cs, [] => .element t a (f t cs)
  | .element t a cs, i :: p =>
    match cs[i]? with
    | some c => .element t a (cs.set i (c.modifyChildren f p))
    | none => .element t a cs

/-- The nodes the HTML fragment parser produces for the empty string in the context of
an element: none, except in the context of the html element, where it reaches the end
of the input before a head and a body were seen and inserts both. -/
def parseEmptyFragment (contextTag : String) : List Node :=
  if contextTag = "html" then [.element "head" [] [], .element "body" [] []] else []

/-- The children of an element with tag t and children cs after the assignment
innerHTML = '': the parsed fragment replaces all children. For a template element the
assignment replaces the template contents, which are not among its children, so the
children stay. -/
def innerHTMLCleared (t : String) (cs : List Node) : List Node :=
  if t = "template" then cs else parseEmptyFragment t

/-- The assignment el.innerHTML = '' on the element at a path. -/
def clearInnerHTML (doc : Node) (el : Path) : Node :=
  doc.modifyChildren innerHTMLCleared el

/-- Test whether the assignment el.innerHTML = '' removes the node at q from the
document: the descendants of el go, unless el is a template element. -/
def removedByClear (doc : Node) (el q : Path) : Bool :=
  isDescendant el q && tagAt doc el != some "template"

/-- The document with the children of the element at a path left out: two documents
that agree on it differ at most in the children of that element. -/
def withoutChildren (doc : Node) (el : Path) : Node :=
  doc.modifyChildren (fun _ _ => []) el

/-- The call el.appendChild(child) for a new node: it becomes the last child. -/
def appendChild (doc : Node) (el : Path) (child : Node) : Node :=
  doc.modifyChildren (fun _ cs => cs ++ [child]) el

/-- Test for an img element. -/
def isImg : Node → Bool
  | .text _ => false
  | .element t _ _ => t == "img"

/-- Number of img elements in a child list. -/
def imgCount (cs : List Node) : Nat := cs.countP isImg

/-! ## The page state -/

/-- A file of the selected-files collection of the input. -/
structure File where
  name : String
  deriving DecidableEq

/-- A FileReader created by the change listener whose readAsDataURL has neither
completed nor failed: its identity, the file being read, and the imgPreview
element captured by its onload callback. -/
structure Reader where
  id : Nat
  file : File
  sink : Path
  deriving DecidableEq

/-- The page after the script has run: the document, the listeners the script attached
to elements of the document, and the reads in flight. -/
structure Page where
  doc : Node
  /-- The change listener if attached: the element it is attached to (imgInput) and the
  element its closure writes to (imgPreview). -/
  changeListener : Option (Path × Path)
  /-- The forms with a submit listener, one entry per addEventListener call. -/
  submitListeners : List Path
  /-- The FileReaders with a read in flight, oldest first. -/
  pending : List Reader
  /-- Identity of the next FileReader to be created. -/
  nextReader : Nat

/-- The handler of DOMContentLoaded (lines 5-34). -/
def DOMContentLoaded (doc : Node) : Page :=
  let imgInput := getElementById doc "image-input"
  let imgPreview := getElementById doc "image-preview"
  { doc := doc
    changeListener :=
      match imgInput, imgPreview with
      | some i, some p => some (i, p)
      | _, _ => none
    submitListeners := querySelectorAll doc "form" "data-confirm"
    pending := []
    nextReader := 0 }

/-- The change listener of imgInput (lines 12-23), run with the selected-files
collection of the event target. The elements that innerHTML = '' removes from the
document take their listeners with them. -/
def onChange (pg : Page) (imgPreview : Path) (files : List File) : Page :=
  let doc1 := clearInnerHTML pg.doc imgPreview
  let pg1 : Page :=
    { pg with
      doc := doc1
      changeListener :=
        pg.changeListener.filter fun l => !removedByClear pg.doc imgPreview l.1
      submitListeners :=
        pg.submitListeners.filter fun q => !removedByClear pg.doc imgPreview q }
  match files.head? with
  | none => pg1
  | some file =>
    { pg1 with
      pending := pg.pending ++ [{ id := pg.nextReader, file := file, sink := imgPreview }]
      nextReader := pg.nextReader + 1 }

/-- The onload callback of a reader (lines 17-21), run with the result of the read. -/
def onload (pg : Page) (imgPreview : Path) (result : String) : Page :=
  let img := (createElement "img").setAttribute "src" result
  { pg with doc := appendChild pg.doc imgPreview img }

/-- What the browser does to the page after the script has run. -/
inductive Event where
  /-- A change event at the file input at target whose selected-files collection is
  files. -/
  | change (target : Path) (files : List File)
  /-- The read of a reader completes with a data URL: its load event fires. -/
  | load (reader : Nat) (result : String)
  /-- The read of a reader fails: only its error event fires, which has no handler. -/
  | error (reader : Nat)
  deriving DecidableEq

/-- Test whether a change event at target reaches the change listener: the target is a
node of the document, and it is imgInput or a descendant of it. -/
def changeReaches (pg : Page) (imgInput target : Path) : Bool :=
  isAncestorOrSelf imgInput target && (pg.doc.nodeAt target).isSome

/-- Test whether a change event at target runs the change listener. -/
def changeHeard (pg : Page) (target : Path) : Bool :=
  match pg.changeListener with
  | some (imgInput, _) => changeReaches pg imgInput target
  | none => false

/-- One event. A change event bubbles and runs the change listener when it reaches
imgInput; load and error events concern readers with a read in flight only. -/
def step (pg : Page) : Event → Page
  | .change target files =>
    match pg.changeListener with
    | some (imgInput, imgPreview) =>
      if changeReaches pg imgInput target then onChange pg imgPreview files else pg
    | none => pg
  | .load r result =>
    match pg.pending.find? fun rd => rd.id == r with
    | some rd =>
      onload { pg with pending := pg.pending.filter fun x => x.id != r } rd.sink result
    | none => pg
  | .error r => { pg with pending := pg.pending.filter fun x => x.id != r }

/-- A sequence of events, oldest first. -/
def run (pg : Page) (es : List Event) : Page := es.foldl step pg

/-- The img element the onload callback appends for a data URL. -/
def previewImg (u : String) : Node := .element "img" [("src", u)] []

/-- A schedule during which at most one read is in flight at any time. -/
def serial (pg : Page) : List Event → Bool
  | [] => decide (pg.pending.length ≤ 1)
  | e :: es => decide (pg.pending.length ≤ 1) && serial (step pg e) es

/-! ## The confirmation prompt -/

/-- A submit event. -/
structure SubmitEvent where
  defaultPrevented : Bool
  deriving DecidableEq

/-- Event.preventDefault. -/
def SubmitEvent.preventDefault (_e : SubmitEvent) : SubmitEvent :=
  { defaultPrevented := true }

/-- What the submit listeners did during one submit event: the messages passed to
window.confirm in order, the number of preventDefault calls, and the event. -/
structure SubmitOutcome where
  prompts : List String
  preventDefaultCalls : Nat
  event : SubmitEvent
  deriving DecidableEq

/-- The expression a || b of the script for a string or null a: b when a is null or
the empty string, else a. -/
def orElse (a : Option String) (b : String) : String :=
  match a with
  | some s => if s = "" then b else s
  | none => b

/-- The submit listener of a form (lines 28-31); confirm is the answer of the user
to a prompt with the given message. -/
def submitListener (form : Node) (confirm : String → Bool) (o : SubmitOutcome) :
    SubmitOutcome :=
  let msg := orElse (form.getAttribute "data-confirm") "Are you sure?"
  let o1 := { o with prompts := o.prompts ++ [msg] }
  if !confirm msg then
    { o1 with preventDefaultCalls := o1.preventDefaultCalls + 1
              event := o1.event.preventDefault }
  else o1

/-- The submit listeners a submit event at target runs, in order: the event bubbles, so
these are the listeners attached to the target and then those attached to its
ancestors, innermost first. -/
def submitListenersFor (pg : Page) (target : Path) : List Path :=
  (eventPath target).flatMap fun el => pg.submitListeners.filter fun q => q == el

/-- A submit event at the node at target: every listener on the event path runs, each on
the form it was attached to, as that form is now. -/
def dispatchSubmit (pg : Page) (target : Path) (confirm : String → Bool)
    (e : SubmitEvent) : SubmitOutcome :=
  match pg.doc.nodeAt target with
  | some _ =>
    (submitListenersFor pg target).foldl
      (fun o q =>
        match pg.doc.nodeAt q with
        | some form => submitListener form confirm o
        | none => o)
      { prompts := [], preventDefaultCalls := 0, event := e }
  | none => { prompts := [], preventDefaultCalls := 0, event := e }

/-! ## Invariant and view of the preview -/

/-- What holds of every page reached from a document whose preview container is the
element at prev, with tag t. -/
structure Inv (prev : Path) (t : String) (pg : Page) : Prop where
  elem : ∃ a cs, pg.doc.nodeAt prev = some (.element t a cs)
  sink : ∀ r ∈ pg.pending, r.sink = prev
  fresh : ∀ r ∈ pg.pending, r.id < pg.nextReader
  listener : ∀ l, pg.changeListener = some l → l.2 = prev

/-- A page on which change events at target reach the change listener, now and after
every later event: the listener is attached to inp and writes to prev, the target is
inp or below it, and the target is not inside the preview container. -/
structure Ready (inp prev : Path) (t : String) (target : Path) (pg : Page) : Prop where
  inv : Inv prev t pg
  listener : pg.changeListener = some (inp, prev)
  reach : isAncestorOrSelf inp target = true
  outside : isDescendant prev target = false
  present : (pg.doc.nodeAt target).isSome = true

/-- The part of the page the preview acts on: the children of the preview container,
the reads in flight and the identity of the next reader. -/
structure View where
  children : List Node
  pending : List Reader
  nextReader : Nat

/-- The view of a page with preview container prev. -/
def Page.view (pg : Page) (prev : Path) : View :=
  { children := childrenAt pg.doc prev, pending := pg.pending, nextReader := pg.nextReader }

/-- The events as the preview sees them: a selection is a change event that reaches the
change listener. -/
inductive PreviewEvent where
  | select (files : List File)
  | load (reader : Nat) (result : String)
  | error (reader : Nat)

/-- The event of the page for an event of the preview, with the change events at target. -/
def PreviewEvent.toEvent (target : Path) : PreviewEvent → Event
  | .select files => .change target files
  | .load r u => .load r u
  | .error r => .error r

/-- The effect of an event on the view, for a preview container prev with tag t;
view_step proves that step acts on the view of a page in this way. -/
def View.step (prev : Path) (t : String) (v : View) : PreviewEvent → View
  | .select files =>
    match files.head? with
    | none => { v with children := innerHTMLCleared t v.children }
    | some file =>
      { children := innerHTMLCleared t v.children
        pending := v.pending ++ [{ id := v.nextReader, file := file, sink := prev }]
        nextReader := v.nextReader + 1 }
  | .load r u =>
    match v.pending.find? fun rd => rd.id == r with
    | some _ =>
      { v with children := v.children ++ [previewImg u]
               pending := v.pending.filter fun x => x.id != r }
    | none => v
  | .error r => { v with pending := v.pending.filter fun x => x.id != r }

/-- The effect of a sequence of events on the view. -/
def View.run (prev : Path) (t : String) (v : View) (es : List PreviewEvent) : View :=
  es.foldl (View.step prev t) v

/-! ## Sample pages -/

/-- A page with a file input and a preview container that holds a placeholder. -/
def recipeForm : Node :=
  .element "html" [] [
    .element "form" [("method", "post")] [
      .element "input" [("type", "file"), ("id", "image-input")] [],
      .element "div" [("id", "image-preview")] [.element "p" [] [.text "No image"]]],
    .element "form" [("data-confirm", "Delete this recipe?")] [],
    .element "form" [("data-confirm", "")] []]

/-- The same page later on, after the message of the first marked form was changed. -/
def recipeFormLater : Node :=
  .element "html" [] [
    .element "form" [("method", "post")] [
      .element "input" [("type", "file"), ("id", "image-input")] [],
      .element "div" [("id", "image-preview")] [.element "p" [] [.text "No image"]]],
    .element "form" [("data-confirm", "Really delete?")] [],
    .element "form" [("data-confirm", "")] []]

/-- A page without the preview container. -/
def plainPage : Node :=
  .element "html" [] [
    .element "input" [("id", "image-input")] [],
    .element "form" [("data-confirm", "Delete this recipe?")] []]

/-- A page whose preview container is the html element. -/
def htmlPreviewPage : Node :=
  .element "html" [("id", "image-preview")] [
    .element "head" [] [.element "title" [] [.text "Recipes"]],
    .element "body" [] [.element "input" [("type", "file"), ("id", "image-input")] []]]

/-- A page whose preview container is a template element. -/
def templatePreviewPage : Node :=
  .element "html" [] [
    .element "input" [("type", "file"), ("id", "image-input")] [],
    .element "template" [("id", "image-preview")] []]

/-- A page on which the id image-input is on a wrapper of the file input. -/
def wrappedInputPage : Node :=
  .element "html" [] [
    .element "label" [("id", "image-input")] [.element "input" [("type", "file")] []],
    .element "div" [("id", "image-preview")] []]

/-- A page with a form without data-confirm inside a form with data-confirm. -/
def nestedPlainForm : Node :=
  .element "html" [] [
    .element "form" [("data-confirm", "Outer?")] [.element "form" [] []]]

/-- A page with a form with data-confirm inside another form with data-confirm. -/
def nestedMarkedForms : Node :=
  .element "html" [] [
    .element "form" [("data-confirm", "Outer?")] [
      .element "form" [("data-confirm", "Inner?")] []]]

/-! ## The DOM tree -/

theorem getElem_isSome_lt {cs : List Node} {i : Nat} {c : Node} (hc : cs[i]? = some c) :
    i < cs.length := by
  by_contra hlt
  rw [List.getElem?_eq_none (Nat.le_of_not_lt hlt)] at hc
  cases hc

theorem nodeAt_modifyChildren (f : String → List Node → List Node) :
    ∀ (p : Path) (doc : Node) (t : String) (a : List (String × String)) (cs : List Node),
      doc.nodeAt p = some (.element t a cs) →
      (doc.modifyChildren f p).nodeAt p = some (.element t a (f t cs)) := by
  intro p
  induction p with
  | nil =>
    intro doc t a cs h
    simp only [Node.nodeAt, Option.some.injEq] at h
    subst h
    rfl
  | cons i p ih =>
    intro doc t a cs h
    cases doc with
    | text d => simp [Node.nodeAt] at h
    | element t0 a0 cs0 =>
      simp only [Node.nodeAt] at h
      cases hc : cs0[i]? with
      | none => simp [hc] at h
      | some c =>
        simp only [hc] at h
        simp only [Node.modifyChildren, hc, Node.nodeAt]
        rw [List.getElem?_set_self (getElem_isSome_lt hc)]
        exact ih c t a cs h

theorem modifyChildren_modifyChildren (f g : String → List Node → List Node) :
    ∀ (p : Path) (doc : Node),
      (doc.modifyChildren f p).modifyChildren g p =
        doc.modifyChildren (fun t cs => g t (f t cs)) p := by
  intro p
  induction p with
  | nil =>
    intro doc
    cases doc <;> rfl
  | cons i p ih =>
    intro doc
    cases doc with
    | text d => rfl
    | element t0 a0 cs0 =>
      cases hc : cs0[i]? with
      | none => simp [Node.modifyChildren, hc]
      | some c =>
        simp only [Node.modifyChildren, hc]
        rw [List.getElem?_set_self (getElem_isSome_lt hc)]
        simp only [List.set_set, ih]

theorem nodeAt_modifyChildren_isSome (f : String → List Node → List Node) :
    ∀ (q p : Path) (doc : Node), isDescendant p q = false →
      ((doc.modifyChildren f p).nodeAt q).isSome = (doc.nodeAt q).isSome := by
  intro q
  induction q with
  | nil => intro p doc _; simp [Node.nodeAt]
  | cons j q ih =>
    intro p doc h
    cases doc with
    | text d => simp [Node.modifyChildren]
    | element t a cs =>
      cases p with
      | nil => simp [isDescendant] at h
      | cons i p =>
        cases hc : cs[i]? with
        | none => simp [Node.modifyChildren, hc]
        | some c =>
          simp only [Node.modifyChildren, hc, Node.nodeAt]
          by_cases hij : i = j
          · subst hij
            rw [List.getElem?_set_self (getElem_isSome_lt hc)]
            simp only [hc]
            apply ih
            simpa [isDescendant] using h
          · rw [List.getElem?_set_ne hij]

theorem isDescendant_of_isAncestorOrSelf :
    ∀ (a b c : Path), isDescendant a b = true → isAncestorOrSelf b c = true →
      isDescendant a c = true := by
  intro a
  induction a with
  | nil =>
    intro b c hab hbc
    cases b with
    | nil => simp [isDescendant] at hab
    | cons i b =>
      cases c with
      | nil => simp [isAncestorOrSelf] at hbc
      | cons j c => rfl
  | cons k a ih =>
    intro b c hab hbc
    cases b with
    | nil => simp [isDescendant] at hab
    | cons i b =>
      cases c with
      | nil => simp [isAncestorOrSelf] at hbc
      | cons j c =>
        simp only [isDescendant, isAncestorOrSelf, Bool.and_eq_true, beq_iff_eq] at hab hbc ⊢
        exact ⟨hab.1.trans hbc.1, ih b c hab.2 hbc.2⟩

theorem isDescendant_of_mem_properAncestors :
    ∀ (p q : Path), q ∈ properAncestors p → isDescendant q p = true := by
  intro p
  induction p with
  | nil => intro q h; simp [properAncestors] at h
  | cons i p ih =>
    intro q h
    simp only [properAncestors, List.mem_cons, List.mem_map] at h
    rcases h with rfl | ⟨r, hr, rfl⟩
    · rfl
    · simp [isDescendant, ih r hr]

theorem mem_childElements (p : Path) (m : Node) :
    ∀ (cs : List Node) (i : Nat),
      (p, m) ∈ childElements i cs ↔
        ∃ j q c, p = (i + j) :: q ∧ cs[j]? = some c ∧ (q, m) ∈ c.elements := by
  intro cs
  induction cs with
  | nil => intro i; simp [childElements]
  | cons n ns ih =>
    intro i
    simp only [childElements, List.mem_append, List.mem_map, Prod.mk.injEq, Prod.exists, ih]
    constructor
    · rintro (⟨q, m', hq, rfl, rfl⟩ | ⟨j, q, c, rfl, hc, hq⟩)
      · exact ⟨0, q, n, by simp, by simp, hq⟩
      · exact ⟨j + 1, q, c, by simp; omega, by simpa using hc, hq⟩
    · rintro ⟨j, q, c, rfl, hc, hq⟩
      cases j with
      | zero =>
        simp only [List.getElem?_cons_zero, Option.some.injEq] at hc
        subst hc
        exact Or.inl ⟨q, m, hq, by simp, rfl⟩
      | succ j =>
        exact Or.inr ⟨j, q, c, by simp; omega, by simpa using hc, hq⟩

theorem mem_elements :
    ∀ (p : Path) (n m : Node),
      (p, m) ∈ n.elements ↔ n.nodeAt p = some m ∧ ∃ t a cs, m = .element t a cs := by
  intro p
  induction p with
  | nil =>
    intro n m
    cases n with
    | text d =>
      simp only [Node.elements, List.not_mem_nil, Node.nodeAt, Option.some.injEq, false_iff]
      rintro ⟨rfl, t, a, cs, h⟩
      cases h
    | element t a cs =>
      simp only [Node.elements, List.mem_cons, Prod.mk.injEq, true_and, mem_childElements,
        Node.nodeAt, Option.some.injEq]
      constructor
      · rintro (rfl | ⟨j, q, c, h, _⟩)
        · exact ⟨rfl, t, a, cs, rfl⟩
        · cases h
      · rintro ⟨rfl, _⟩
        exact Or.inl rfl
  | cons i p ih =>
    intro n m
    cases n with
    | text d => simp [Node.elements, Node.nodeAt]
    | element t a cs =>
      simp only [Node.elements, List.mem_cons, Prod.mk.injEq, mem_childElements, Node.nodeAt]
      constructor
      · rintro (⟨h, _⟩ | ⟨j, q, c, h, hc, hq⟩)
        · cases h
        · simp only [Nat.zero_add, List.cons.injEq] at h
          obtain ⟨rfl, rfl⟩ := h
          simp only [hc]
          exact (ih c m).1 hq
      · intro h
        cases hc : cs[i]? with
        | none => simp [hc] at h
        | some c =>
          simp only [hc] at h
          exact Or.inr ⟨i, p, c, by simp, hc, (ih c m).2 h⟩

mutual
theorem nodup_elements : ∀ n : Node, (n.elements.map Prod.fst).Nodup
  | .text _ => by simp [Node.elements]
  | .element t a cs => by
    simp only [Node.elements, List.map_cons, List.nodup_cons]
    refine ⟨?_, nodup_childElements 0 cs⟩
    intro h
    obtain ⟨⟨p, m⟩, hm, hp⟩ := List.mem_map.1 h
    simp only at hp
    subst hp
    obtain ⟨j, q, c, h1, _⟩ := (mem_childElements _ _ _ _).1 hm
    cases h1
theorem nodup_childElements : ∀ (i : Nat) (cs : List Node),
    ((childElements i cs).map Prod.fst).Nodup
  | _, [] => by simp [childElements]
  | i, n :: ns => by
    simp only [childElements, List.map_append, List.map_map]
    refine List.Nodup.append ?_ (nodup_childElements (i + 1) ns) ?_
    · have h := (nodup_elements n).map (f := fun q : Path => i :: q)
        (fun a b hab => by simpa using hab)
      simpa [List.map_map, Function.comp_def] using h
    · intro q h1 h2
      obtain ⟨⟨p1, m1⟩, _, hp1⟩ := List.mem_map.1 h1
      obtain ⟨⟨p2, m2⟩, hm2, hp2⟩ := List.mem_map.1 h2
      simp only [Function.comp_apply] at hp1 hp2
      subst hp2
      obtain ⟨j, q2, c, h3, _⟩ := (mem_childElements _ _ _ _).1 hm2
      subst h3
      simp only [List.cons.injEq] at hp1
      omega
end

theorem getElementById_isElement {doc : Node} {id : String} {p : Path}
    (h : getElementById doc id = some p) :
    ∃ t a cs, doc.nodeAt p = some (.element t a cs) := by
  unfold getElementById at h
  cases hf : doc.elements.find? (fun e => e.2.getAttribute "id" == some id) with
  | none => simp [hf] at h
  | some e =>
    simp only [hf, Option.map_some', Option.some.injEq] at h
    have hm := List.mem_of_find?_eq_some hf
    obtain ⟨q, m⟩ := e
    simp only at h
    subst h
    obtain ⟨h1, t, a, cs, rfl⟩ := (mem_elements _ _ _).1 hm
    exact ⟨t, a, cs, h1⟩

theorem mem_querySelectorAll (doc : Node) (tag attr : String) (q : Path) :
    q ∈ querySelectorAll doc tag attr ↔
      ∃ a cs, doc.nodeAt q = some (.element tag a cs) ∧ (a.lookup attr).isSome = true := by
  unfold querySelectorAll
  constructor
  · intro h
    obtain ⟨⟨p, m⟩, hm, hp⟩ := List.mem_map.1 h
    simp only at hp
    subst hp
    obtain ⟨hm, hsel⟩ := List.mem_filter.1 hm
    obtain ⟨h1, t, a, cs, rfl⟩ := (mem_elements _ _ _).1 hm
    simp only [Node.matchesSelector, Bool.and_eq_true, beq_iff_eq] at hsel
    obtain ⟨rfl, ha⟩ := hsel
    exact ⟨a, cs, h1, ha⟩
  · rintro ⟨a, cs, h1, ha⟩
    refine List.mem_map.2 ⟨(q, .element tag a cs), List.mem_filter.2 ⟨?_, ?_⟩, rfl⟩
    · exact (mem_elements _ _ _).2 ⟨h1, tag, a, cs, rfl⟩
    · simp [Node.matchesSelector, ha]

theorem nodup_querySelectorAll (doc : Node) (tag attr : String) :
    (querySelectorAll doc tag attr).Nodup := by
  unfold querySelectorAll
  have h := nodup_elements doc
  have hs : (doc.elements.filter fun e => e.2.matchesSelector tag attr).Sublist doc.elements :=
    List.filter_sublist _
  exact (hs.map Prod.fst).nodup h

/-! ## The page -/

theorem childrenAt_modifyChildren (f : String → List Node → List Node) {doc : Node}
    {p : Path} {t : String} (h : ∃ a cs, doc.nodeAt p = some (.element t a cs)) :
    childrenAt (doc.modifyChildren f p) p = f t (childrenAt doc p) := by
  obtain ⟨a, cs, h⟩ := h
  simp [childrenAt, nodeAt_modifyChildren f p doc t a cs h, h, Node.children]

theorem isElement_modifyChildren (f : String → List Node → List Node) {doc : Node}
    {p : Path} {t : String} (h : ∃ a cs, doc.nodeAt p = some (.element t a cs)) :
    ∃ a cs, (doc.modifyChildren f p).nodeAt p = some (.element t a cs) := by
  obtain ⟨a, cs, h⟩ := h
  exact ⟨a, f t cs, nodeAt_modifyChildren f p doc t a cs h⟩

theorem tagAt_of_isElement {doc : Node} {p : Path} {t : String}
    (h : ∃ a cs, doc.nodeAt p = some (.element t a cs)) : tagAt doc p = some t := by
  obtain ⟨a, cs, h⟩ := h
  simp [tagAt, h]

theorem isElement_of_tagAt {doc : Node} {p : Path} {t : String}
    (h : tagAt doc p = some t) : ∃ a cs, doc.nodeAt p = some (.element t a cs) := by
  unfold tagAt at h
  cases hn : doc.nodeAt p with
  | none => simp [hn] at h
  | some n =>
    cases n with
    | text d => simp [hn] at h
    | element t0 a cs =>
      simp only [hn, Option.some.injEq] at h
      subst h
      exact ⟨a, cs, rfl⟩

theorem onload_img (u : String) : (createElement "img").setAttribute "src" u = previewImg u :=
  rfl

theorem imgCount_innerHTMLCleared {t : String} (ht : t ≠ "template") (cs : List Node) :
    imgCount (innerHTMLCleared t cs) = 0 := by
  unfold innerHTMLCleared parseEmptyFragment
  simp only [ht, if_false]
  split <;> rfl

theorem filter_innerHTMLCleared {t : String} (ht : t ≠ "template") (cs : List Node) :
    (innerHTMLCleared t cs).filter isImg = [] := by
  unfold innerHTMLCleared parseEmptyFragment
  simp only [ht, if_false]
  split <;> rfl

theorem changeListener_init {doc : Node} {l : Path × Path}
    (h : (DOMContentLoaded doc).changeListener = some l) :
    getElementById doc "image-input" = some l.1 ∧
      getElementById doc "image-preview" = some l.2 := by
  unfold DOMContentLoaded at h
  simp only at h
  cases hi : getElementById doc "image-input" with
  | none => simp [hi] at h
  | some i =>
    cases hp : getElementById doc "image-preview" with
    | none => simp [hi, hp] at h
    | some p =>
      simp only [hi, hp, Option.some.injEq] at h
      subst h
      exact ⟨rfl, rfl⟩

theorem inv_init {doc : Node} {prev : Path} {t : String}
    (hp : getElementById doc "image-preview" = some prev)
    (ht : tagAt doc prev = some t) :
    Inv prev t (DOMContentLoaded doc) where
  elem := isElement_of_tagAt ht
  sink := by simp [DOMContentLoaded]
  fresh := by simp [DOMContentLoaded]
  listener := by
    intro l hl
    have h := (changeListener_init hl).2
    rw [hp] at h
    exact (Option.some.inj h).symm

theorem changeListener_onChange {pg : Page} {prev : Path} {files : List File}
    {l : Path × Path} (h : (onChange pg prev files).changeListener = some l) :
    pg.changeListener = some l := by
  have h1 : (pg.changeListener.filter fun l => !removedByClear pg.doc prev l.1) = some l := by
    unfold onChange at h
    cases hf : files.head? <;> simpa [hf] using h
  cases hc : pg.changeListener with
  | none => simp [hc, Option.filter] at h1
  | some l0 =>
    simp only [hc, Option.filter] at h1
    split at h1
    · exact h1
    · cases h1

theorem inv_onChange {prev : Path} {t : String} {pg : Page} (h : Inv prev t pg)
    (files : List File) : Inv prev t (onChange pg prev files) := by
  have hl : ∀ l, (onChange pg prev files).changeListener = some l → l.2 = prev :=
    fun l hl => h.listener l (changeListener_onChange hl)
  have he : ∃ a cs, (onChange pg prev files).doc.nodeAt prev = some (.element t a cs) := by
    unfold onChange
    cases hf : files.head? <;> exact isElement_modifyChildren _ h.elem
  refine ⟨he, ?_, ?_, hl⟩
  · unfold onChange
    cases hf : files.head? with
    | none => exact h.sink
    | some file =>
      intro r hr
      rcases List.mem_append.1 hr with hr | hr
      · exact h.sink r hr
      · simp only [List.mem_singleton] at hr
        subst hr
        rfl
  · unfold onChange
    cases hf : files.head? with
    | none => exact h.fresh
    | some file =>
      intro r hr
      rcases List.mem_append.1 hr with hr | hr
      · exact Nat.lt_succ_of_lt (h.fresh r hr)
      · simp only [List.mem_singleton] at hr
        subst hr
        exact Nat.lt_succ_self _

theorem step_change_cases {prev : Path} {t : String} {pg : Page} (h : Inv prev t pg)
    (target : Path) (files : List File) :
    step pg (.change target files) = pg ∨
      step pg (.change target files) = onChange pg prev files := by
  simp only [step]
  cases hc : pg.changeListener with
  | none => exact Or.inl rfl
  | some l =>
    obtain ⟨i, p⟩ := l
    have hp : p = prev := h.listener _ hc
    subst hp
    simp only
    split
    · exact Or.inr rfl
    · exact Or.inl rfl

theorem step_change_fires {inp prev : Path} {pg : Page} {target : Path}
    (hl : pg.changeListener = some (inp, prev))
    (hr : changeReaches pg inp target = true) (files : List File) :
    step pg (.change target files) = onChange pg prev files := by
  simp [step, hl, hr]

theorem step_change_idle {inp prev : Path} {pg : Page} {target : Path}
    (hl : pg.changeListener = some (inp, prev))
    (hr : changeReaches pg inp target = false) (files : List File) :
    step pg (.change target files) = pg := by
  simp [step, hl, hr]

theorem step_load_none {pg : Page} {r : Nat} (u : String)
    (h : pg.pending.find? (fun rd => rd.id == r) = none) :
    step pg (.load r u) = pg := by
  simp only [step, h]

theorem step_load_some {pg : Page} {r : Nat} {rd : Reader} (u : String)
    (h : pg.pending.find? (fun rd => rd.id == r) = some rd) :
    step pg (.load r u) =
      { pg with
        doc := appendChild pg.doc rd.sink (previewImg u)
        pending := pg.pending.filter fun x => x.id != r } := by
  simp only [step, h, onload, onload_img]

theorem inv_step {prev : Path} {t : String} {pg : Page} (h : Inv prev t pg) (e : Event) :
    Inv prev t (step pg e) := by
  cases e with
  | change target files =>
    rcases step_change_cases h target files with hs | hs
    · rw [hs]; exact h
    · rw [hs]; exact inv_onChange h files
  | load r u =>
    cases hf : pg.pending.find? (fun rd => rd.id == r) with
    | none => rw [step_load_none u hf]; exact h
    | some rd =>
      rw [step_load_some u hf]
      have hs : rd.sink = prev := h.sink rd (List.mem_of_find?_eq_some hf)
      refine ⟨?_, ?_, ?_, h.listener⟩
      · rw [hs]
        exact isElement_modifyChildren _ h.elem
      · intro x hx
        exact h.sink x (List.mem_filter.1 hx).1
      · intro x hx
        exact h.fresh x (List.mem_filter.1 hx).1
  | error r =>
    refine ⟨h.elem, ?_, ?_, h.listener⟩
    · intro x hx
      exact h.sink x (List.mem_filter.1 hx).1
    · intro x hx
      exact h.fresh x (List.mem_filter.1 hx).1

theorem inv_run {prev : Path} {t : String} (es : List Event) :
    ∀ {pg : Page}, Inv prev t pg → Inv prev t (run pg es) := by
  induction es with
  | nil => intro pg h; exact h
  | cons e es ih => intro pg h; exact ih (inv_step h e)

theorem view_onChange {prev : Path} {t : String} {pg : Page} (h : Inv prev t pg)
    (files : List File) :
    (onChange pg prev files).view prev = (pg.view prev).step prev t (.select files) := by
  have hc : childrenAt (clearInnerHTML pg.doc prev) prev =
      innerHTMLCleared t (childrenAt pg.doc prev) :=
    childrenAt_modifyChildren _ h.elem
  unfold onChange
  cases hf : files.head? <;> simp only [Page.view, View.step, hf, hc]

theorem view_load {prev : Path} {t : String} {pg : Page} (h : Inv prev t pg)
    (r : Nat) (u : String) :
    (step pg (.load r u)).view prev = (pg.view prev).step prev t (.load r u) := by
  cases hf : pg.pending.find? (fun rd => rd.id == r) with
  | none =>
    rw [step_load_none u hf]
    simp [View.step, Page.view, hf]
  | some rd =>
    have hs : rd.sink = prev := h.sink rd (List.mem_of_find?_eq_some hf)
    rw [step_load_some u hf]
    simp only [Page.view, View.step, hf, hs, appendChild, childrenAt_modifyChildren _ h.elem]

theorem view_error {prev : Path} {t : String} (pg : Page) (r : Nat) :
    (step pg (.error r)).view prev = (pg.view prev).step prev t (.error r) :=
  rfl

theorem frame_step {prev : Path} {t : String} {pg : Page} (h : Inv prev t pg) (e : Event) :
    withoutChildren (step pg e).doc prev = withoutChildren pg.doc prev := by
  unfold withoutChildren
  cases e with
  | change target files =>
    rcases step_change_cases h target files with hs | hs
    · rw [hs]
    · rw [hs]
      unfold onChange
      cases hf : files.head? <;>
        simp only [clearInnerHTML, modifyChildren_modifyChildren]
  | load r u =>
    cases hf : pg.pending.find? (fun rd => rd.id == r) with
    | none => rw [step_load_none u hf]
    | some rd =>
      have hs : rd.sink = prev := h.sink rd (List.mem_of_find?_eq_some hf)
      rw [step_load_some u hf]
      simp only [appendChild, hs, modifyChildren_modifyChildren]
  | error r => rfl

theorem changeListener_step {pg : Page} {e : Event} {l : Path × Path}
    (h : (step pg e).changeListener = some l) : pg.changeListener = some l := by
  cases e with
  | change target files =>
    simp only [step] at h
    cases hc : pg.changeListener with
    | none => simp [hc] at h
    | some l0 =>
      obtain ⟨i, p⟩ := l0
      simp only [hc] at h
      split at h
      · rw [← hc]
        exact changeListener_onChange h
      · rw [← hc]
        exact h
  | load r u =>
    cases hf : pg.pending.find? (fun rd => rd.id == r) with
    | none => rw [step_load_none u hf] at h; exact h
    | some rd => rw [step_load_some u hf] at h; exact h
  | error r => exact h

theorem changeListener_run (es : List Event) :
    ∀ {pg : Page} {l : Path × Path}, (run pg es).changeListener = some l →
      pg.changeListener = some l := by
  induction es with
  | nil => intro pg l h; exact h
  | cons e es ih => intro pg l h; exact changeListener_step (ih h)

theorem inv_reached {doc : Node} {inp prev : Path} {t : String} {es : List Event}
    (hl : (run (DOMContentLoaded doc) es).changeListener = some (inp, prev))
    (ht : tagAt doc prev = some t) : Inv prev t (run (DOMContentLoaded doc) es) :=
  inv_run es (inv_init (changeListener_init (changeListener_run es hl)).2 ht)

theorem ready_step {inp prev : Path} {t : String} {target : Path} {pg : Page}
    (h : Ready inp prev t target pg) (e : Event) : Ready inp prev t target (step pg e) := by
  have hinp : isDescendant prev inp = false := by
    cases hd : isDescendant prev inp with
    | false => rfl
    | true =>
      have := isDescendant_of_isAncestorOrSelf prev inp target hd h.reach
      rw [h.outside] at this
      cases this
  refine ⟨inv_step h.inv e, ?_, h.reach, h.outside, ?_⟩
  · cases e with
    | change tg files =>
      rcases step_change_cases h.inv tg files with hs | hs
      · rw [hs]; exact h.listener
      · rw [hs]
        unfold onChange
        cases hf : files.head? <;>
          simp [h.listener, Option.filter, removedByClear, hinp]
    | load r u =>
      cases hf : pg.pending.find? (fun rd => rd.id == r) with
      | none => rw [step_load_none u hf]; exact h.listener
      | some rd => rw [step_load_some u hf]; exact h.listener
    | error r => exact h.listener
  · cases e with
    | change tg files =>
      rcases step_change_cases h.inv tg files with hs | hs
      · rw [hs]; exact h.present
      · rw [hs]
        have hd : (onChange pg prev files).doc = clearInnerHTML pg.doc prev := by
          unfold onChange
          cases hf : files.head? <;> rfl
        rw [hd, clearInnerHTML, nodeAt_modifyChildren_isSome _ _ _ _ h.outside]
        exact h.present
    | load r u =>
      cases hf : pg.pending.find? (fun rd => rd.id == r) with
      | none => rw [step_load_none u hf]; exact h.present
      | some rd =>
        have hs : rd.sink = prev := h.inv.sink rd (List.mem_of_find?_eq_some hf)
        rw [step_load_some u hf]
        simp only [appendChild, hs]
        rw [nodeAt_modifyChildren_isSome _ _ _ _ h.outside]
        exact h.present
    | error r => exact h.present

theorem view_step {inp prev : Path} {t : String} {target : Path} {pg : Page}
    (h : Ready inp prev t target pg) (e : PreviewEvent) :
    (step pg (e.toEvent target)).view prev = (pg.view prev).step prev t e := by
  cases e with
  | select files =>
    have hr : changeReaches pg inp target = true := by
      simp [changeReaches, h.reach, h.present]
    simp only [PreviewEvent.toEvent]
    rw [step_change_fires h.listener hr]
    exact view_onChange h.inv files
  | load r u => exact view_load h.inv r u
  | error r => rfl

theorem view_run {inp prev : Path} {t : String} {target : Path} (es : List PreviewEvent) :
    ∀ {pg : Page}, Ready inp prev t target pg →
      (run pg (es.map (PreviewEvent.toEvent target))).view prev =
        (pg.view prev).run prev t es := by
  induction es with
  | nil => intro pg _; rfl
  | cons e es ih =>
    intro pg h
    simp only [run, View.run, List.map_cons, List.foldl_cons]
    have := ih (ready_step h (e.toEvent target))
    simp only [run, View.run] at this
    rw [this, view_step h e]

theorem serial_pending {pg : Page} {es : List Event} (h : serial pg es = true) :
    pg.pending.length ≤ 1 := by
  cases es with
  | nil => simpa [serial] using h
  | cons e es =>
    simp only [serial, Bool.and_eq_true, decide_eq_true_eq] at h
    exact h.1

theorem length_filter_lt_of_find {ps : List Reader} {r : Nat} {rd : Reader}
    (h : ps.find? (fun x => x.id == r) = some rd) :
    (ps.filter fun x => x.id != r).length < ps.length := by
  have hm := List.mem_of_find?_eq_some h
  have hr : rd.id = r := by simpa using List.find?_some h
  induction ps with
  | nil => cases hm
  | cons p ps ih =>
    by_cases hp : p.id = r
    · have : (List.filter (fun x => x.id != r) (p :: ps)) = List.filter (fun x => x.id != r) ps := by
        simp [List.filter_cons, hp]
      rw [this]
      exact Nat.lt_succ_of_le (List.length_filter_le _ _)
    · have hne : rd ≠ p := by
        intro hh
        exact hp (hh ▸ hr)
      have hm2 : rd ∈ ps := by
        rcases List.mem_cons.1 hm with hh | hh
        · exact absurd hh hne
        · exact hh
      have hf2 : ps.find? (fun x => x.id == r) = some rd := by
        simpa [List.find?_cons, hp] using h
      have := ih hf2 hm2
      simp [List.filter_cons, hp]
      exact this

theorem one_image_step {prev : Path} {t : String} {pg : Page} (h : Inv prev t pg)
    (ht : t ≠ "template") (e : Event)
    (hJ : imgCount (childrenAt pg.doc prev) + pg.pending.length ≤ 1)
    (hs : (step pg e).pending.length ≤ 1) :
    imgCount (childrenAt (step pg e).doc prev) + (step pg e).pending.length ≤ 1 := by
  cases e with
  | change target files =>
    rcases step_change_cases h target files with hc | hc
    · rw [hc]; exact hJ
    · rw [hc] at hs ⊢
      have hv := view_onChange h files
      have h1 : childrenAt (onChange pg prev files).doc prev =
          ((pg.view prev).step prev t (.select files)).children := congrArg View.children hv
      have h2 : ((pg.view prev).step prev t (.select files)).children =
          innerHTMLCleared t (childrenAt pg.doc prev) := by
        simp only [View.step, Page.view]
        cases files.head? <;> rfl
      rw [h1, h2, imgCount_innerHTMLCleared ht]
      omega
  | load r u =>
    have hv := view_load h r u
    have hc : childrenAt (step pg (.load r u)).doc prev =
        ((pg.view prev).step prev t (.load r u)).children := congrArg View.children hv
    have hp : (step pg (.load r u)).pending =
        ((pg.view prev).step prev t (.load r u)).pending := congrArg View.pending hv
    rw [hc, hp]
    simp only [View.step, Page.view]
    cases hf : pg.pending.find? (fun rd => rd.id == r) with
    | none =>
      simp only [hf]
      exact hJ
    | some rd =>
      simp only [hf]
      have hlt := length_filter_lt_of_find hf
      have : imgCount (childrenAt pg.doc prev ++ [previewImg u])
          = imgCount (childrenAt pg.doc prev) + 1 := by
        simp [imgCount, List.countP_append, previewImg, isImg]
      rw [this]
      omega
  | error r =>
    have := List.length_filter_le (fun x : Reader => x.id != r) pg.pending
    simp only [step] at hs ⊢
    omega

theorem one_image_run {prev : Path} {t : String} (ht : t ≠ "template") (es : List Event) :
    ∀ {pg : Page}, Inv prev t pg →
      imgCount (childrenAt pg.doc prev) + pg.pending.length ≤ 1 →
      serial pg es = true →
      imgCount (childrenAt (run pg es).doc prev) + (run pg es).pending.length ≤ 1 := by
  induction es with
  | nil => intro pg _ hJ _; exact hJ
  | cons e es ih =>
    intro pg h hJ hs
    simp only [serial, Bool.and_eq_true, decide_eq_true_eq] at hs
    exact ih (inv_step h e) (one_image_step h ht e hJ (serial_pending hs.2)) hs.2

/-! ## The claims -/

/-- C1, as stated, fails: when a second file is selected while the first read is still
in flight and both reads then complete, the preview container holds two img elements. -/
theorem preview_two_images_reachable :
    ¬ imgCount (childrenAt (run (DOMContentLoaded recipeForm)
        [.change [0, 0] [⟨"a.png"⟩], .change [0, 0] [⟨"b.png"⟩],
         .load 0 "data:image/png;base64,AA", .load 1 "data:image/png;base64,BB"]).doc
        [0, 1]) ≤ 1 := by
  decide

/-- A template element as preview container collects one img element per completed read,
also when at most one read is in flight at any time: innerHTML = '' empties the template
contents, not the children of the template element. -/
theorem template_preview_keeps_images :
    serial (DOMContentLoaded templatePreviewPage)
        [.change [0] [⟨"a.png"⟩], .load 0 "data:image/png;base64,AA",
         .change [0] [⟨"b.png"⟩], .load 1 "data:image/png;base64,BB"] = true ∧
    imgCount (childrenAt (run (DOMContentLoaded templatePreviewPage)
        [.change [0] [⟨"a.png"⟩], .load 0 "data:image/png;base64,AA",
         .change [0] [⟨"b.png"⟩], .load 1 "data:image/png;base64,BB"]).doc [1]) = 2 := by
  decide

/-- C1, amended: starting from a page whose preview container is not a template element
and holds at most one img element, along every sequence of events during which at most
one read is in flight at any time, the preview container holds at most one img element in
the state reached. -/
theorem preview_at_most_one_image_when_serial (doc : Node) (inp prev : Path)
    (hi : getElementById doc "image-input" = some inp)
    (hp : getElementById doc "image-preview" = some prev)
    (ht : tagAt doc prev ≠ some "template")
    (h0 : imgCount (childrenAt doc prev) ≤ 1)
    (es : List Event) (hs : serial (DOMContentLoaded doc) es = true) :
    imgCount (childrenAt (run (DOMContentLoaded doc) es).doc prev) ≤ 1 := by
  have _ := hi
  obtain ⟨t, a, cs, he⟩ := getElementById_isElement hp
  have htag : tagAt doc prev = some t := tagAt_of_isElement ⟨a, cs, he⟩
  have ht2 : t ≠ "template" := fun h => ht (h ▸ htag)
  have h := one_image_run ht2 es (inv_init hp htag) (by simpa [DOMContentLoaded] using h0) hs
  omega

theorem preview_at_most_one_image_when_serial_witness :
    imgCount (childrenAt (run (DOMContentLoaded recipeForm)
        [.change [0, 0] [⟨"a.png"⟩], .load 0 "data:image/png;base64,AA",
         .change [0, 0] [⟨"b.png"⟩], .load 1 "data:image/png;base64,BB"]).doc [0, 1]) ≤ 1 :=
  preview_at_most_one_image_when_serial recipeForm [0, 0] [0, 1] (by decide) (by decide)
    (by decide) (by decide) _ (by decide)

theorem ready_reached {doc : Node} {inp prev : Path} {t : String} {es : List Event}
    {target : Path}
    (hl : (run (DOMContentLoaded doc) es).changeListener = some (inp, prev))
    (ht : tagAt doc prev = some t)
    (hreach : isAncestorOrSelf inp target = true)
    (hout : isDescendant prev target = false)
    (hex : ((run (DOMContentLoaded doc) es).doc.nodeAt target).isSome = true) :
    Ready inp prev t target (run (DOMContentLoaded doc) es) :=
  ⟨inv_reached hl ht, hl, hreach, hout, hex⟩

theorem children_run {inp prev : Path} {t : String} {target : Path} {pg : Page}
    (h : Ready inp prev t target pg) (es : List PreviewEvent) :
    childrenAt (run pg (es.map (PreviewEvent.toEvent target))).doc prev =
      ((pg.view prev).run prev t es).children :=
  congrArg View.children (view_run es h)

theorem pending_run {inp prev : Path} {t : String} {target : Path} {pg : Page}
    (h : Ready inp prev t target pg) (es : List PreviewEvent) :
    (run pg (es.map (PreviewEvent.toEvent target))).pending =
      ((pg.view prev).run prev t es).pending :=
  congrArg View.pending (view_run es h)

theorem isImg_previewImg (u : String) : isImg (previewImg u) = true := rfl

theorem tag_ne_template {doc : Node} {prev : Path} {t : String}
    (htag : tagAt doc prev = some t) (ht : tagAt doc prev ≠ some "template") :
    t ≠ "template" :=
  fun h => ht (h ▸ htag)

/-- C2, as stated, fails: when the second file is selected while the first read is in
flight and the first read completes last, the preview container ends with two img
elements, the last of which shows the first file. -/
theorem two_selections_leave_two_images :
    imgCount (childrenAt (run (DOMContentLoaded recipeForm)
        [.change [0, 0] [⟨"a.png"⟩], .change [0, 0] [⟨"b.png"⟩],
         .load 1 "data:image/png;base64,BB", .load 0 "data:image/png;base64,AA"]).doc
        [0, 1]) = 2 ∧
    childrenAt (run (DOMContentLoaded recipeForm)
        [.change [0, 0] [⟨"a.png"⟩], .change [0, 0] [⟨"b.png"⟩],
         .load 1 "data:image/png;base64,BB", .load 0 "data:image/png;base64,AA"]).doc
        [0, 1] = [previewImg "data:image/png;base64,BB", previewImg "data:image/png;base64,AA"] :=
  ⟨by decide, rfl⟩

/-- C2, amended: two files are selected one after the other by change events that reach
the change listener from a file input outside the preview container, starting in a
reachable state with no read in flight; the container is not a template element. If the
read of the first file completes before the second file is selected, then once both reads
have completed the img elements of the preview container are exactly one, whose source is
the data URL read from the second file. If the second file is selected while the first
read is in flight, then once both reads have completed the img elements of the container
are two, one per read, in the order of completion. -/
theorem two_selections_by_schedule (doc : Node) (inp prev : Path) (t : String)
    (htag : tagAt doc prev = some t) (ht : t ≠ "template")
    (es : List Event)
    (hl : (run (DOMContentLoaded doc) es).changeListener = some (inp, prev))
    (hq : (run (DOMContentLoaded doc) es).pending = [])
    (target : Path) (hreach : isAncestorOrSelf inp target = true)
    (hout : isDescendant prev target = false)
    (hex : ((run (DOMContentLoaded doc) es).doc.nodeAt target).isSome = true)
    (f1 f2 : File) (r1 r2 : List File) (u1 u2 : String) :
    (run (run (DOMContentLoaded doc) es)
        [.change target (f1 :: r1), .change target (f2 :: r2)]).pending =
      [{ id := (run (DOMContentLoaded doc) es).nextReader, file := f1, sink := prev },
       { id := (run (DOMContentLoaded doc) es).nextReader + 1, file := f2, sink := prev }] ∧
    (childrenAt (run (run (DOMContentLoaded doc) es)
        [.change target (f1 :: r1), .load (run (DOMContentLoaded doc) es).nextReader u1,
         .change target (f2 :: r2),
         .load ((run (DOMContentLoaded doc) es).nextReader + 1) u2]).doc prev).filter isImg =
      [previewImg u2] ∧
    (childrenAt (run (run (DOMContentLoaded doc) es)
        [.change target (f1 :: r1), .change target (f2 :: r2),
         .load (run (DOMContentLoaded doc) es).nextReader u1,
         .load ((run (DOMContentLoaded doc) es).nextReader + 1) u2]).doc prev).filter isImg =
      [previewImg u1, previewImg u2] ∧
    (childrenAt (run (run (DOMContentLoaded doc) es)
        [.change target (f1 :: r1), .change target (f2 :: r2),
         .load ((run (DOMContentLoaded doc) es).nextReader + 1) u2,
         .load (run (DOMContentLoaded doc) es).nextReader u1]).doc prev).filter isImg =
      [previewImg u2, previewImg u1] := by
  have h := ready_reached hl htag hreach hout hex
  generalize run (DOMContentLoaded doc) es = pg at h hq
  refine ⟨?_, ?_, ?_, ?_⟩
  · have := pending_run h [.select (f1 :: r1), .select (f2 :: r2)]
    simp only [List.map, PreviewEvent.toEvent] at this
    rw [this]
    simp [View.run, View.step, Page.view, hq]
  · have := children_run h
      [.select (f1 :: r1), .load pg.nextReader u1, .select (f2 :: r2),
       .load (pg.nextReader + 1) u2]
    simp only [List.map, PreviewEvent.toEvent] at this
    rw [this]
    simp [View.run, View.step, Page.view, hq, List.filter_append,
      filter_innerHTMLCleared ht, isImg_previewImg]
  · have := children_run h
      [.select (f1 :: r1), .select (f2 :: r2), .load pg.nextReader u1,
       .load (pg.nextReader + 1) u2]
    simp only [List.map, PreviewEvent.toEvent] at this
    rw [this]
    simp [View.run, View.step, Page.view, hq, List.filter_append,
      filter_innerHTMLCleared ht, isImg_previewImg]
  · have := children_run h
      [.select (f1 :: r1), .select (f2 :: r2), .load (pg.nextReader + 1) u2,
       .load pg.nextReader u1]
    simp only [List.map, PreviewEvent.toEvent] at this
    rw [this]
    simp [View.run, View.step, Page.view, hq, List.filter_append,
      filter_innerHTMLCleared ht, isImg_previewImg]

theorem two_selections_by_schedule_witness :
    (childrenAt (run (run (DOMContentLoaded wrappedInputPage) [])
        [.change [0, 0] [⟨"a.png"⟩], .load 0 "data:image/png;base64,AA",
         .change [0, 0] [⟨"b.png"⟩], .load 1 "data:image/png;base64,BB"]).doc [1]).filter
        isImg = [previewImg "data:image/png;base64,BB"] :=
  (two_selections_by_schedule wrappedInputPage [0] [1] "div" (by decide) (by decide) [] rfl
    rfl [0, 0] (by decide) (by decide) (by decide)
    ⟨"a.png"⟩ ⟨"b.png"⟩ [] [] "data:image/png;base64,AA" "data:image/png;base64,BB").2.1

theorem run_errors (rs : List Nat) :
    ∀ pg : Page,
      (run pg (rs.map Event.error)).doc = pg.doc ∧
      (run pg (rs.map Event.error)).pending =
        pg.pending.filter fun x => decide (x.id ∉ rs) := by
  induction rs with
  | nil => intro pg; simp [run]
  | cons r rs ih =>
    intro pg
    have h := ih (step pg (.error r))
    simp only [List.map_cons, run, List.foldl_cons] at h ⊢
    refine ⟨h.1, ?_⟩
    rw [h.2]
    simp only [step, List.filter_filter]
    apply List.filter_congr
    intro x _
    by_cases hx : x.id = r <;> simp [hx]

theorem run_cons_append (pg : Page) (e : Event) (es : List Event) (e2 : Event) :
    run pg (e :: (es ++ [e2])) = step (run (step pg e) es) e2 := by
  simp [run, List.foldl_append]

theorem changeReaches_of {pg : Page} {inp target : Path}
    (hreach : isAncestorOrSelf inp target = true)
    (hex : (pg.doc.nodeAt target).isSome = true) : changeReaches pg inp target = true := by
  simp [changeReaches, hreach, hex]

theorem tag_reached {doc : Node} {inp prev : Path} {es : List Event}
    (hl : (run (DOMContentLoaded doc) es).changeListener = some (inp, prev)) :
    ∃ t, tagAt doc prev = some t := by
  obtain ⟨t, a, cs, he⟩ :=
    getElementById_isElement (changeListener_init (changeListener_run es hl)).2
  exact ⟨t, tagAt_of_isElement ⟨a, cs, he⟩⟩

theorem innerHTMLCleared_plain {t : String} (hhtml : t ≠ "html") (htmpl : t ≠ "template")
    (cs : List Node) : innerHTMLCleared t cs = [] := by
  simp [innerHTMLCleared, parseEmptyFragment, hhtml, htmpl]

theorem children_onChange {prev : Path} {t : String} {pg : Page} (h : Inv prev t pg)
    (files : List File) :
    childrenAt (onChange pg prev files).doc prev =
      innerHTMLCleared t (childrenAt pg.doc prev) := by
  unfold onChange
  cases hf : files.head? <;> exact childrenAt_modifyChildren _ h.elem

theorem pending_onChange_cons (pg : Page) (prev : Path) (f : File) (rest : List File) :
    (onChange pg prev (f :: rest)).pending =
      pg.pending ++ [{ id := pg.nextReader, file := f, sink := prev }] :=
  rfl

/-- C5, as stated, fails: a file is selected while an older read is in flight; the older
read completes first, and when the read of the selected file completes the preview
container holds two img elements, the first of them for the older file. -/
theorem stale_read_adds_second_image :
    (childrenAt (run (run (DOMContentLoaded recipeForm) [.change [0, 0] [⟨"old.png"⟩]])
        [.change [0, 0] [⟨"f.png"⟩], .load 0 "data:image/png;base64,OLD",
         .load 1 "data:image/png;base64,FF"]).doc [0, 1]).filter isImg =
      [previewImg "data:image/png;base64,OLD", previewImg "data:image/png;base64,FF"] :=
  rfl

/-- C5, amended: in every reachable state, whatever the preview container (not a
template element) holds, a change event that reaches the change listener with a
selected-files collection starting with a file f starts a read of f; if only read
failures of other readers occur until that read completes with data URL u, then the
preview container holds exactly one img element, whose source is u. -/
theorem preview_shows_first_file (doc : Node) (inp prev : Path)
    (ht : tagAt doc prev ≠ some "template")
    (es : List Event)
    (hl : (run (DOMContentLoaded doc) es).changeListener = some (inp, prev))
    (target : Path) (hreach : isAncestorOrSelf inp target = true)
    (hex : ((run (DOMContentLoaded doc) es).doc.nodeAt target).isSome = true)
    (f : File) (rest : List File) (rs : List Nat)
    (hrs : (run (DOMContentLoaded doc) es).nextReader ∉ rs) (u : String) :
    (step (run (DOMContentLoaded doc) es) (.change target (f :: rest))).pending =
      (run (DOMContentLoaded doc) es).pending ++
        [{ id := (run (DOMContentLoaded doc) es).nextReader, file := f, sink := prev }] ∧
    (childrenAt (run (run (DOMContentLoaded doc) es)
        (.change target (f :: rest) ::
          (rs.map Event.error ++
            [.load (run (DOMContentLoaded doc) es).nextReader u]))).doc prev).filter isImg =
      [previewImg u] ∧
    imgCount (childrenAt (run (run (DOMContentLoaded doc) es)
        (.change target (f :: rest) ::
          (rs.map Event.error ++
            [.load (run (DOMContentLoaded doc) es).nextReader u]))).doc prev) = 1 := by
  obtain ⟨t, htag⟩ := tag_reached hl
  have ht2 := tag_ne_template htag ht
  have h := inv_reached hl htag
  generalize run (DOMContentLoaded doc) es = pg at h hl hex hrs
  have hs : step pg (.change target (f :: rest)) = onChange pg prev (f :: rest) :=
    step_change_fires hl (changeReaches_of hreach hex) _
  have h1 : Inv prev t (onChange pg prev (f :: rest)) := inv_onChange h _
  obtain ⟨hd, hq⟩ := run_errors rs (onChange pg prev (f :: rest))
  have h2 : Inv prev t (run (onChange pg prev (f :: rest)) (rs.map Event.error)) :=
    inv_run _ h1
  have hmem : ({ id := pg.nextReader, file := f, sink := prev } : Reader) ∈
      (run (onChange pg prev (f :: rest)) (rs.map Event.error)).pending := by
    rw [hq, pending_onChange_cons]
    simp [hrs]
  have hfind : ((run (onChange pg prev (f :: rest)) (rs.map Event.error)).pending.find?
      fun rd => rd.id == pg.nextReader).isSome = true := by
    rw [List.find?_isSome]
    exact ⟨_, hmem, by simp⟩
  have hc : (childrenAt (run pg (.change target (f :: rest) ::
      (rs.map Event.error ++ [.load pg.nextReader u]))).doc prev).filter isImg =
        [previewImg u] := by
    rw [run_cons_append, hs]
    have hv := congrArg View.children (view_load h2 pg.nextReader u)
    simp only [Page.view, View.step] at hv
    rw [hv]
    cases hf : (run (onChange pg prev (f :: rest)) (rs.map Event.error)).pending.find?
        (fun rd => rd.id == pg.nextReader) with
    | none => simp [hf] at hfind
    | some rd =>
      simp only [hd, children_onChange h, List.filter_append, filter_innerHTMLCleared ht2]
      rfl
  refine ⟨?_, hc, ?_⟩
  · rw [hs]
    rfl
  · rw [imgCount, List.countP_eq_length_filter, hc]
    rfl

theorem preview_shows_first_file_witness :
    (childrenAt (run (run (DOMContentLoaded wrappedInputPage)
        [.change [0, 0] [⟨"old.png"⟩]])
        (.change [0, 0] [⟨"a.png"⟩, ⟨"b.png"⟩] ::
          ([0].map Event.error ++ [.load 1 "data:image/png;base64,AA"]))).doc [1]).filter
        isImg = [previewImg "data:image/png;base64,AA"] :=
  (preview_shows_first_file wrappedInputPage [0] [1] (by decide)
    [.change [0, 0] [⟨"old.png"⟩]] (by decide) [0, 0] (by decide) (by decide)
    ⟨"a.png"⟩ [⟨"b.png"⟩] [0] (by decide) "data:image/png;base64,AA").2.1

/-- C6, as stated, fails: when the preview container is the html element, innerHTML = ''
leaves it with a new head and body, so the container is not empty after a change event
without a file. -/
theorem html_preview_not_empty_after_change :
    childrenAt (step (DOMContentLoaded htmlPreviewPage) (.change [1, 0] [])).doc [] =
      [.element "head" [] [], .element "body" [] []] :=
  rfl

/-- C6, amended: in every reachable state, whatever the preview container holds, a
change event that reaches the change listener with an empty selected-files collection
leaves the preview container empty and starts no read, provided the container is neither
the html element nor a template element. -/
theorem preview_cleared_without_file (doc : Node) (inp prev : Path) (t : String)
    (htag : tagAt doc prev = some t) (hhtml : t ≠ "html") (htmpl : t ≠ "template")
    (es : List Event)
    (hl : (run (DOMContentLoaded doc) es).changeListener = some (inp, prev))
    (target : Path) (hreach : isAncestorOrSelf inp target = true)
    (hex : ((run (DOMContentLoaded doc) es).doc.nodeAt target).isSome = true) :
    childrenAt (step (run (DOMContentLoaded doc) es) (.change target [])).doc prev = [] ∧
    (step (run (DOMContentLoaded doc) es) (.change target [])).pending =
      (run (DOMContentLoaded doc) es).pending ∧
    (step (run (DOMContentLoaded doc) es) (.change target [])).nextReader =
      (run (DOMContentLoaded doc) es).nextReader := by
  have h := inv_reached hl htag
  generalize run (DOMContentLoaded doc) es = pg at h hl hex
  rw [step_change_fires hl (changeReaches_of hreach hex)]
  exact ⟨by rw [children_onChange h, innerHTMLCleared_plain hhtml htmpl], rfl, rfl⟩

theorem preview_cleared_without_file_witness :
    childrenAt (step (run (DOMContentLoaded recipeForm)
        [.change [0, 0] [⟨"a.png"⟩], .load 0 "data:image/png;base64,AA"])
        (.change [0, 0] [])).doc [0, 1] = [] :=
  (preview_cleared_without_file recipeForm [0, 0] [0, 1] "div" (by decide) (by decide)
    (by decide) [.change [0, 0] [⟨"a.png"⟩], .load 0 "data:image/png;base64,AA"]
    (by decide) [0, 0] (by decide) (by decide)).1

/-- C10, as stated, fails: when the preview container is the html element, the change
event leaves it with a new head and body, so after the read has failed the container
is not empty. -/
theorem html_preview_not_empty_after_failed_read :
    childrenAt (run (step (DOMContentLoaded htmlPreviewPage) (.change [1, 0] [⟨"a.png"⟩]))
        ([0].map Event.error)).doc [] =
      [.element "head" [] [], .element "body" [] []] :=
  rfl

/-- C10, amended: in every reachable state, after a change event that reaches the change
listener with a file, the preview container is empty, and it is still empty after any
number of reads have failed, provided the container is neither the html element nor a
template element; once the read of that file has failed, no load event of that reader
appends an image or changes the page. -/
theorem failed_read_leaves_preview_empty (doc : Node) (inp prev : Path) (t : String)
    (htag : tagAt doc prev = some t) (hhtml : t ≠ "html") (htmpl : t ≠ "template")
    (es : List Event)
    (hl : (run (DOMContentLoaded doc) es).changeListener = some (inp, prev))
    (target : Path) (hreach : isAncestorOrSelf inp target = true)
    (hex : ((run (DOMContentLoaded doc) es).doc.nodeAt target).isSome = true)
    (f : File) (rest : List File) (rs : List Nat)
    (hfail : (run (DOMContentLoaded doc) es).nextReader ∈ rs) (u : String) :
    childrenAt (step (run (DOMContentLoaded doc) es)
        (.change target (f :: rest))).doc prev = [] ∧
    childrenAt (run (step (run (DOMContentLoaded doc) es) (.change target (f :: rest)))
        (rs.map Event.error)).doc prev = [] ∧
    step (run (step (run (DOMContentLoaded doc) es) (.change target (f :: rest)))
        (rs.map Event.error)) (.load (run (DOMContentLoaded doc) es).nextReader u) =
      run (step (run (DOMContentLoaded doc) es) (.change target (f :: rest)))
        (rs.map Event.error) := by
  have h := inv_reached hl htag
  generalize run (DOMContentLoaded doc) es = pg at h hl hex hfail
  have hc : childrenAt (step pg (.change target (f :: rest))).doc prev = [] := by
    rw [step_change_fires hl (changeReaches_of hreach hex), children_onChange h,
      innerHTMLCleared_plain hhtml htmpl]
  obtain ⟨hd, hq⟩ := run_errors rs (step pg (.change target (f :: rest)))
  refine ⟨hc, ?_, ?_⟩
  · rw [hd]
    exact hc
  · apply step_load_none
    rw [hq, List.find?_eq_none]
    intro x hx
    have hx2 := (List.mem_filter.1 hx).2
    simp only [decide_eq_true_eq] at hx2
    simp only [beq_iff_eq]
    intro hxe
    exact hx2 (hxe ▸ hfail)

theorem failed_read_leaves_preview_empty_witness :
    childrenAt (run (step (run (DOMContentLoaded recipeForm) []) (.change [0, 0] [⟨"a.png"⟩]))
        ([0].map Event.error)).doc [0, 1] = [] :=
  (failed_read_leaves_preview_empty recipeForm [0, 0] [0, 1] "div" (by decide) (by decide)
    (by decide) [] (by decide) [0, 0] (by decide) (by decide)
    ⟨"a.png"⟩ [] [0] (by decide) "data:image/png;base64,AA").2.1

/-- C9, as stated, fails: a change event removes every child of the preview container,
the non-image children included. On the sample page the placeholder paragraph of the
container is gone after a change event without a file. -/
theorem change_removes_placeholder :
    childrenAt (DOMContentLoaded recipeForm).doc [0, 1] =
        [.element "p" [] [.text "No image"]] ∧
      isImg (.element "p" [] [.text "No image"]) = false ∧
      childrenAt (step (DOMContentLoaded recipeForm) (.change [0, 0] [])).doc [0, 1] = [] :=
  ⟨rfl, rfl, rfl⟩

/-- C9, amended: on a page whose preview container is neither the html element nor a
template element, in every reachable state an event changes at most the child list of
the preview container (the documents before and after agree once the children of the
container are left out). A change event that runs the change listener removes all
children of the container, image or not, and any other change event changes nothing;
the completion of a read in flight keeps the children of the container and appends one
img element with the data URL read, and the completion of any other read changes
nothing; a failed read leaves the document unchanged. -/
theorem events_touch_only_preview_children (doc : Node) (prev : Path) (t : String)
    (hp : getElementById doc "image-preview" = some prev)
    (htag : tagAt doc prev = some t) (hhtml : t ≠ "html") (htmpl : t ≠ "template")
    (es : List Event) (e : Event) :
    withoutChildren (step (run (DOMContentLoaded doc) es) e).doc prev =
      withoutChildren (run (DOMContentLoaded doc) es).doc prev ∧
    match e with
    | .change target _ =>
      if changeHeard (run (DOMContentLoaded doc) es) target = true then
        childrenAt (step (run (DOMContentLoaded doc) es) e).doc prev = []
      else step (run (DOMContentLoaded doc) es) e = run (DOMContentLoaded doc) es
    | .load r u =>
      if ((run (DOMContentLoaded doc) es).pending.find? fun rd => rd.id == r).isSome = true
      then
        childrenAt (step (run (DOMContentLoaded doc) es) e).doc prev =
          childrenAt (run (DOMContentLoaded doc) es).doc prev ++ [previewImg u]
      else step (run (DOMContentLoaded doc) es) e = run (DOMContentLoaded doc) es
    | .error _ =>
      (step (run (DOMContentLoaded doc) es) e).doc = (run (DOMContentLoaded doc) es).doc := by
  have h := inv_run es (inv_init hp htag)
  generalize run (DOMContentLoaded doc) es = pg at h
  refine ⟨frame_step h e, ?_⟩
  cases e with
  | change target files =>
    simp only
    cases hc : pg.changeListener with
    | none => simp [changeHeard, hc, step]
    | some l =>
      obtain ⟨i, p⟩ := l
      have hpp : p = prev := h.listener _ hc
      subst hpp
      cases hr : changeReaches pg i target with
      | false =>
        simp only [changeHeard, hc, hr, Bool.false_eq_true, if_false]
        exact step_change_idle hc hr files
      | true =>
        simp only [changeHeard, hc, hr, if_true]
        rw [step_change_fires hc hr, children_onChange h, innerHTMLCleared_plain hhtml htmpl]
  | load r u =>
    simp only
    cases hf : pg.pending.find? (fun rd => rd.id == r) with
    | none =>
      simp only [Option.isSome_none, Bool.false_eq_true, if_false]
      exact step_load_none u hf
    | some rd =>
      simp only [Option.isSome_some, if_true]
      have hs : rd.sink = prev := h.sink rd (List.mem_of_find?_eq_some hf)
      rw [step_load_some u hf]
      simp only [hs, appendChild, childrenAt_modifyChildren _ h.elem]
  | error r => rfl

theorem events_touch_only_preview_children_witness :
    withoutChildren (step (run (DOMContentLoaded recipeForm) [.change [0, 0] [⟨"a.png"⟩]])
        (.load 0 "data:image/png;base64,AA")).doc [0, 1] =
      withoutChildren (run (DOMContentLoaded recipeForm) [.change [0, 0] [⟨"a.png"⟩]]).doc
        [0, 1] :=
  (events_touch_only_preview_children recipeForm [0, 1] "div" (by decide) (by decide)
    (by decide) (by decide) [.change [0, 0] [⟨"a.png"⟩]]
    (.load 0 "data:image/png;base64,AA")).1

theorem step_idle {pg : Page} (hl : pg.changeListener = none) (hq : pg.pending = [])
    (e : Event) : step pg e = pg := by
  obtain ⟨d, cl, sl, ps, n⟩ := pg
  simp only at hl hq
  subst hl hq
  cases e <;> rfl

theorem run_idle {pg : Page} (hl : pg.changeListener = none) (hq : pg.pending = [])
    (es : List Event) : run pg es = pg := by
  induction es with
  | nil => rfl
  | cons e es ih =>
    simp only [run, List.foldl_cons, step_idle hl hq e]
    exact ih

theorem mem_submitListeners (doc : Node) (q : Path) :
    q ∈ (DOMContentLoaded doc).submitListeners ↔
      ∃ a cs, doc.nodeAt q = some (.element "form" a cs) ∧
        (a.lookup "data-confirm").isSome = true :=
  mem_querySelectorAll doc "form" "data-confirm" q

/-- C7: when the element with id image-input or the element with id image-preview is
absent, the handler attaches no change listener and leaves the document as it is, no
later change, load or error event changes the page, and the submit listeners are
attached to the forms that carry data-confirm. -/
theorem missing_elements_disable_preview (doc : Node)
    (h : getElementById doc "image-input" = none ∨ getElementById doc "image-preview" = none)
    (es : List Event) (q : Path) :
    (DOMContentLoaded doc).changeListener = none ∧
    (DOMContentLoaded doc).doc = doc ∧
    run (DOMContentLoaded doc) es = DOMContentLoaded doc ∧
    (q ∈ (DOMContentLoaded doc).submitListeners ↔
      ∃ a cs, doc.nodeAt q = some (.element "form" a cs) ∧
        (a.lookup "data-confirm").isSome = true) := by
  have hl : (DOMContentLoaded doc).changeListener = none := by
    unfold DOMContentLoaded
    rcases h with h | h
    · simp [h]
    · simp only [h]
      cases getElementById doc "image-input" <;> rfl
  exact ⟨hl, rfl, run_idle hl rfl es, mem_submitListeners doc q⟩

theorem missing_elements_disable_preview_witness :
    run (DOMContentLoaded plainPage)
        [.change [0] [⟨"a.png"⟩], .load 0 "data:image/png;base64,AA"] =
      DOMContentLoaded plainPage :=
  (missing_elements_disable_preview plainPage (Or.inr (by decide))
    [.change [0] [⟨"a.png"⟩], .load 0 "data:image/png;base64,AA"] [1]).2.2.1

theorem submitListeners_step (pg : Page) (e : Event) :
    (step pg e).submitListeners.Sublist pg.submitListeners := by
  cases e with
  | change target files =>
    simp only [step]
    cases pg.changeListener with
    | none => exact List.Sublist.refl _
    | some l =>
      obtain ⟨i, p⟩ := l
      simp only
      split
      · unfold onChange
        cases files.head? <;> exact List.filter_sublist _
      · exact List.Sublist.refl _
  | load r u =>
    simp only [step]
    cases pg.pending.find? (fun rd => rd.id == r) <;> exact List.Sublist.refl _
  | error r => exact List.Sublist.refl _

theorem submitListeners_run (es : List Event) :
    ∀ pg : Page, (run pg es).submitListeners.Sublist pg.submitListeners := by
  induction es with
  | nil => intro pg; exact List.Sublist.refl _
  | cons e es ih =>
    intro pg
    exact (ih (step pg e)).trans (submitListeners_step pg e)

theorem flatMap_filter_nil (l : List Path) :
    ∀ L : List Path, (∀ el ∈ L, el ∉ l) →
      (L.flatMap fun el => l.filter fun q => q == el) = [] := by
  intro L
  induction L with
  | nil => intro _; rfl
  | cons x xs ih =>
    intro h
    rw [List.flatMap_cons, ih (fun el hel => h el (List.mem_cons_of_mem _ hel)),
      List.append_nil, List.filter_eq_nil_iff]
    intro y hy hyx
    have : y = x := by simpa using hyx
    exact h x (List.mem_cons_self _ _) (this ▸ hy)

theorem count_one_of_nodup {l : List Path} {q : Path} (d : l.Nodup) (h : q ∈ l) :
    l.count q = 1 := by
  induction l with
  | nil => cases h
  | cons x xs ih =>
    rw [List.nodup_cons] at d
    rw [List.count_cons]
    rcases List.mem_cons.1 h with rfl | h
    · simp [List.count_eq_zero_of_not_mem d.1]
    · have hx : x ≠ q := fun hx => d.1 (hx ▸ h)
      simp [ih d.2 h, hx]

theorem ancestors_not_listening {l : List Path} {q : Path}
    (hout : ∀ p ∈ l, isDescendant p q = false) :
    ∀ el ∈ (properAncestors q).reverse, el ∉ l := by
  intro el hel hl
  have h1 := isDescendant_of_mem_properAncestors q el (List.mem_reverse.1 hel)
  rw [hout el hl] at h1
  cases h1

theorem submitListenersFor_alone {pg : Page} {q : Path} (d : pg.submitListeners.Nodup)
    (h : q ∈ pg.submitListeners)
    (hout : ∀ p ∈ pg.submitListeners, isDescendant p q = false) :
    submitListenersFor pg q = [q] := by
  unfold submitListenersFor eventPath
  rw [List.flatMap_cons, flatMap_filter_nil _ _ (ancestors_not_listening hout),
    List.append_nil, List.filter_beq, count_one_of_nodup d h]
  rfl

theorem submitListenersFor_none {pg : Page} {q : Path} (h : q ∉ pg.submitListeners)
    (hout : ∀ p ∈ pg.submitListeners, isDescendant p q = false) :
    submitListenersFor pg q = [] := by
  unfold submitListenersFor eventPath
  rw [List.flatMap_cons, flatMap_filter_nil _ _ (ancestors_not_listening hout),
    List.append_nil, List.filter_beq, List.count_eq_zero_of_not_mem h]
  rfl

theorem dispatchSubmit_none {pg : Page} {q : Path} (h : submitListenersFor pg q = [])
    (confirm : String → Bool) (e : SubmitEvent) :
    dispatchSubmit pg q confirm e = { prompts := [], preventDefaultCalls := 0, event := e } := by
  unfold dispatchSubmit
  rw [h]
  cases pg.doc.nodeAt q <;> rfl

theorem dispatchSubmit_one {pg : Page} {q : Path} {form : Node}
    (h : submitListenersFor pg q = [q]) (hf : pg.doc.nodeAt q = some form)
    (confirm : String → Bool) (e : SubmitEvent) :
    dispatchSubmit pg q confirm e =
      submitListener form confirm { prompts := [], preventDefaultCalls := 0, event := e } := by
  unfold dispatchSubmit
  simp only [h, hf, List.foldl_cons, List.foldl_nil]

/-- C8, as stated, fails: a submit event on a form without data-confirm bubbles to the
form with data-confirm that contains it, whose listener shows the prompt and, when the
user declines, calls preventDefault. -/
theorem nested_plain_form_is_prompted :
    nestedPlainForm.nodeAt [0, 0] = some (.element "form" [] []) ∧
    dispatchSubmit (DOMContentLoaded nestedPlainForm) [0, 0] (fun _ => false)
        { defaultPrevented := false } =
      { prompts := ["Outer?"], preventDefaultCalls := 1,
        event := { defaultPrevented := true } } :=
  ⟨rfl, by decide⟩

/-- C8, amended: the handler attaches submit listeners to exactly the forms that carry
data-confirm when it runs, one listener each; a form without the attribute gets none,
and if it does not lie inside a form that carries the attribute, a submit event on it, at
any later time, shows no prompt, calls preventDefault zero times and leaves the event as
it is. -/
theorem unmarked_form_submits_unprompted (doc : Node) (q : Path)
    (a : List (String × String)) (cs : List Node)
    (hform : doc.nodeAt q = some (.element "form" a cs))
    (hattr : a.lookup "data-confirm" = none)
    (hout : ∀ p ∈ (DOMContentLoaded doc).submitListeners, isDescendant p q = false)
    (es : List Event) (confirm : String → Bool) (e : SubmitEvent) :
    q ∉ (DOMContentLoaded doc).submitListeners ∧
    dispatchSubmit (run (DOMContentLoaded doc) es) q confirm e =
      { prompts := [], preventDefaultCalls := 0, event := e } ∧
    (∀ p, p ∈ (DOMContentLoaded doc).submitListeners ↔
      ∃ a1 cs1, doc.nodeAt p = some (.element "form" a1 cs1) ∧
        (a1.lookup "data-confirm").isSome = true) ∧
    (DOMContentLoaded doc).submitListeners.Nodup := by
  have hn : q ∉ (DOMContentLoaded doc).submitListeners := by
    intro hm
    obtain ⟨a1, cs1, h1, h2⟩ := (mem_submitListeners doc q).1 hm
    rw [hform] at h1
    simp only [Option.some.injEq, Node.element.injEq, true_and] at h1
    obtain ⟨rfl, _⟩ := h1
    simp [hattr] at h2
  have hsub := (submitListeners_run es (DOMContentLoaded doc)).subset
  refine ⟨hn, ?_, fun p => mem_submitListeners doc p, nodup_querySelectorAll doc _ _⟩
  apply dispatchSubmit_none
  exact submitListenersFor_none (fun hm => hn (hsub hm)) (fun p hp => hout p (hsub hp))

theorem unmarked_form_submits_unprompted_witness :
    dispatchSubmit (run (DOMContentLoaded recipeForm) [.change [0, 0] []]) [0]
        (fun _ => false) { defaultPrevented := false } =
      { prompts := [], preventDefaultCalls := 0, event := { defaultPrevented := false } } :=
  (unmarked_form_submits_unprompted recipeForm [0] _ _ rfl (by decide) (by decide)
    [.change [0, 0] []] (fun _ => false) { defaultPrevented := false }).2.1

/-- C3, as stated, fails: a submit event on a form with data-confirm inside another form
with data-confirm runs both listeners. The user accepts the prompt of the form and
declines the prompt of the enclosing form: two prompts were shown for one submit event,
and the event is cancelled although the prompt of the form was accepted. -/
theorem nested_marked_forms_prompt_twice :
    dispatchSubmit (DOMContentLoaded nestedMarkedForms) [0, 0] (fun m => m == "Inner?")
        { defaultPrevented := false } =
      { prompts := ["Inner?", "Outer?"], preventDefaultCalls := 1,
        event := { defaultPrevented := true } } := by
  decide

/-- C3, amended: for a form that carries data-confirm when the handler runs, that does
not lie inside another such form and that still has its listener (no change event has
removed it from the document), a submit event on it shows the confirmation prompt
exactly once; preventDefault is called (once) if and only if the answer is a decline,
and when the user accepts the event is left as it was. -/
theorem confirm_decides_submission (doc : Node) (q : Path)
    (a : List (String × String)) (cs : List Node)
    (hform : doc.nodeAt q = some (.element "form" a cs))
    (hattr : (a.lookup "data-confirm").isSome = true)
    (hout : ∀ p ∈ (DOMContentLoaded doc).submitListeners, isDescendant p q = false)
    (es : List Event)
    (hstill : q ∈ (run (DOMContentLoaded doc) es).submitListeners)
    (form : Node)
    (hnow : (run (DOMContentLoaded doc) es).doc.nodeAt q = some form)
    (confirm : String → Bool) (e : SubmitEvent) :
    q ∈ (DOMContentLoaded doc).submitListeners ∧
    ∃ msg : String,
      (dispatchSubmit (run (DOMContentLoaded doc) es) q confirm e).prompts = [msg] ∧
      (dispatchSubmit (run (DOMContentLoaded doc) es) q confirm e).preventDefaultCalls =
        (if confirm msg = false then 1 else 0) ∧
      (confirm msg = false →
        (dispatchSubmit (run (DOMContentLoaded doc) es) q confirm e).event =
          e.preventDefault) ∧
      (confirm msg = true →
        (dispatchSubmit (run (DOMContentLoaded doc) es) q confirm e).event = e) := by
  have hsub := submitListeners_run es (DOMContentLoaded doc)
  have hd : (run (DOMContentLoaded doc) es).submitListeners.Nodup :=
    hsub.nodup (nodup_querySelectorAll doc _ _)
  refine ⟨(mem_submitListeners doc q).2 ⟨a, cs, hform, hattr⟩, ?_⟩
  rw [dispatchSubmit_one
    (submitListenersFor_alone hd hstill (fun p hp => hout p (hsub.subset hp))) hnow]
  refine ⟨orElse (form.getAttribute "data-confirm") "Are you sure?", ?_⟩
  cases hc : confirm (orElse (form.getAttribute "data-confirm") "Are you sure?") <;>
    simp [submitListener, hc]

theorem confirm_decides_submission_witness :
    (dispatchSubmit (run (DOMContentLoaded recipeForm) [.change [0, 0] []]) [1]
        (fun _ => false) { defaultPrevented := false }).prompts.length = 1 := by
  obtain ⟨_, msg, h, _⟩ :=
    confirm_decides_submission recipeForm [1] _ _ rfl (by decide) (by decide)
      [.change [0, 0] []] (by decide) _ rfl (fun _ => false) { defaultPrevented := false }
  rw [h]
  rfl

/-- C4, as stated, fails: a submit event on a form with data-confirm inside another form
with data-confirm passes two messages to the confirmation prompt, the second of which is
not the value of the attribute of the form submitted. -/
theorem nested_marked_forms_pass_two_messages :
    (nestedMarkedForms.nodeAt [0, 0]).bind (fun form => form.getAttribute "data-confirm") =
      some "Inner?" ∧
    (dispatchSubmit (DOMContentLoaded nestedMarkedForms) [0, 0] (fun _ => true)
        { defaultPrevented := false }).prompts = ["Inner?", "Outer?"] := by
  decide

/-- C4, amended: for a form with a submit listener attached by the handler that does not
lie inside another such form, and whose data-confirm attribute has the value v when a
submit event on it occurs, the message passed to the confirmation prompt is v when v is
not empty and the default Are you sure? when v is empty, whatever the value of the
attribute was when the handler ran. -/
theorem prompt_message_from_attribute (doc : Node) (q : Path)
    (a : List (String × String)) (cs : List Node)
    (hform : doc.nodeAt q = some (.element "form" a cs))
    (hattr : (a.lookup "data-confirm").isSome = true)
    (hout : ∀ p ∈ (DOMContentLoaded doc).submitListeners, isDescendant p q = false)
    (pg : Page) (hpg : pg.submitListeners = (DOMContentLoaded doc).submitListeners)
    (form : Node) (hnow : pg.doc.nodeAt q = some form)
    (v : String) (hv : form.getAttribute "data-confirm" = some v)
    (confirm : String → Bool) (e : SubmitEvent) :
    (dispatchSubmit pg q confirm e).prompts = [if v = "" then "Are you sure?" else v] := by
  have hd : pg.submitListeners.Nodup := by
    rw [hpg]
    exact nodup_querySelectorAll doc _ _
  have hm : q ∈ pg.submitListeners := by
    rw [hpg]
    exact (mem_submitListeners doc q).2 ⟨a, cs, hform, hattr⟩
  rw [dispatchSubmit_one (submitListenersFor_alone hd hm (by rw [hpg]; exact hout)) hnow]
  have hp : ∀ o : SubmitOutcome,
      (submitListener form confirm o).prompts =
        o.prompts ++ [orElse (form.getAttribute "data-confirm") "Are you sure?"] := by
    intro o
    simp only [submitListener]
    split <;> rfl
  rw [hp, hv]
  rfl

theorem prompt_message_from_attribute_witness :
    (dispatchSubmit { DOMContentLoaded recipeForm with doc := recipeFormLater } [1]
        (fun _ => true) { defaultPrevented := false }).prompts =
      [if "Really delete?" = "" then "Are you sure?" else "Really delete?"] :=
  prompt_message_from_attribute recipeForm [1] _ _ rfl (by decide) (by decide)
    { DOMContentLoaded recipeForm with doc := recipeFormLater } rfl _ rfl
    "Really delete?" rfl (fun _ => true) { defaultPrevented := false }

end Script
